import Mathlib

/-!
Verification of the ai_etl_framework media-transcription pipeline.

Shallow embedding of the core task-processing code:
`extractor/models/api_models.py`, `extractor/models/tasks.py`,
`extractor/youtube_transcription/{manager,splitter,audio_transcriber,transcription_service,downloader}.py`
and `common/minio_service.py`.

Timestamps are modelled as `Nat` ticks (the code uses `datetime.now()`, which is
only ever stored or subtracted), and float quantities (progress percentages,
durations in seconds) as `ℚ`.
-/

namespace AIETL

/-- `TaskStatus` from `extractor/models/api_models.py` (a `str` enum). -/
inductive TaskStatus where
  | pending
  | downloading
  | splitting
  | transcribing
  | merging
  | completed
  | failed
  | cancelled
  | paused
deriving DecidableEq, Repr

/-- The string value of each enum member (`TaskStatus.PENDING = 'Pending'` etc.). -/
def statusValue : TaskStatus → String
  | .pending => "Pending"
  | .downloading => "Downloading"
  | .splitting => "Splitting"
  | .transcribing => "Transcribing"
  | .merging => "Merging"
  | .completed => "Completed"
  | .failed => "Failed"
  | .cancelled => "Cancelled"
  | .paused => "Paused"

/-- `TaskStatus.transitions` from `api_models.py` lines 17-29: the dict of
legal destination statuses keyed by source status. -/
def TaskStatus.transitions : TaskStatus → List TaskStatus
  | .pending => [.downloading, .failed, .cancelled]
  | .downloading => [.splitting, .failed, .paused, .cancelled]
  | .splitting => [.transcribing, .failed, .paused, .cancelled]
  | .transcribing => [.merging, .failed, .paused, .cancelled]
  | .merging => [.completed, .failed, .paused, .cancelled]
  | .completed => [.failed]
  | .failed => [.pending]
  | .cancelled => [.pending]
  | .paused => [.pending, .failed, .cancelled]

/-- `TaskStatus.can_transition_to`: membership of the target in the
transition list of the current status. -/
def TaskStatus.canTransitionTo (s n : TaskStatus) : Bool :=
  decide (n ∈ s.transitions)

/-- `TaskStats` from `api_models.py` (progress is a float in [0, 100]). -/
structure TaskStats where
  progress : ℚ
  totalBytes : Nat
  downloadedBytes : Nat
  speed : ℚ
deriving DecidableEq

/-- `TaskError` from `api_models.py` (details omitted; they are free-form). -/
structure TaskError where
  stage : String
  message : String
  timestamp : Nat
deriving DecidableEq

/-- The parts of `TaskMetadata` the verified claims touch:
`download_completed_at`, the `processing['chunk_duration']` per-task override
and `transcription.chunk_count`. -/
structure TaskMetadata where
  downloadCompletedAt : Option Nat
  chunkDuration : Option ℚ
  chunkCount : Option Nat
deriving DecidableEq

/-- `TranscriptionTask` from `extractor/models/tasks.py` (the private lock is
not data; thread-safe methods are modelled as sequential state transformers). -/
structure TranscriptionTask where
  id : String
  url : String
  status : TaskStatus
  createdAt : Nat
  updatedAt : Nat
  stats : TaskStats
  metadata : TaskMetadata
  errors : List TaskError
deriving DecidableEq

/-- `TranscriptionTask.update_status` combined with the `atomic` context
manager (`tasks.py` lines 30-46).  `atomic` runs the body under the lock and
then sets `updated_at = datetime.now()`; in Python the context manager's exit
code runs even when the body leaves via `return False`, so `updated_at` is
refreshed on both branches. -/
def updateStatus (t : TranscriptionTask) (new : TaskStatus) (now : Nat) :
    TranscriptionTask × Bool :=
  if t.status.canTransitionTo new then
    ({ t with status := new, updatedAt := now }, true)
  else
    ({ t with updatedAt := now }, false)

/-- `TranscriptionTask.update_progress` (`tasks.py` lines 58-61): clamp into
[0, 100] under `atomic`, which also bumps `updated_at`. -/
def updateProgress (t : TranscriptionTask) (p : ℚ) (now : Nat) : TranscriptionTask :=
  { t with stats := { t.stats with progress := min (max p 0) 100 }, updatedAt := now }

/-- Modelled from the spec: the section 4.4 transition table as written in the
claim (Pending to Downloading/Failed/Cancelled; ...; Paused to
Pending/Failed/Cancelled). -/
abbrev specLegalTransition (src dst : TaskStatus) : Prop :=
  (src = .pending ∧ (dst = .downloading ∨ dst = .failed ∨ dst = .cancelled)) ∨
  (src = .downloading ∧ (dst = .splitting ∨ dst = .failed ∨ dst = .paused ∨ dst = .cancelled)) ∨
  (src = .splitting ∧ (dst = .transcribing ∨ dst = .failed ∨ dst = .paused ∨ dst = .cancelled)) ∨
  (src = .transcribing ∧ (dst = .merging ∨ dst = .failed ∨ dst = .paused ∨ dst = .cancelled)) ∨
  (src = .merging ∧ (dst = .completed ∨ dst = .failed ∨ dst = .paused ∨ dst = .cancelled)) ∨
  (src = .completed ∧ dst = .failed) ∨
  (src = .failed ∧ dst = .pending) ∨
  (src = .cancelled ∧ dst = .pending) ∨
  (src = .paused ∧ (dst = .pending ∨ dst = .failed ∨ dst = .cancelled))

/-- A concrete freshly created task (status Pending, timestamps 0). -/
def sampleTask : TranscriptionTask :=
  { id := "t1", url := "https://example/video", status := .pending,
    createdAt := 0, updatedAt := 0,
    stats := { progress := 0, totalBytes := 0, downloadedBytes := 0, speed := 0 },
    metadata := { downloadCompletedAt := none, chunkDuration := none, chunkCount := none },
    errors := [] }

lemma canTransitionTo_iff_spec (s n : TaskStatus) :
    s.canTransitionTo n = true ↔ specLegalTransition s n := by
  cases s <;> cases n <;> decide

lemma updateStatus_snd (t : TranscriptionTask) (new : TaskStatus) (now : Nat) :
    (updateStatus t new now).2 = t.status.canTransitionTo new := by
  by_cases h : t.status.canTransitionTo new <;> simp [updateStatus, h]

/-- C1 (counterexample): an illegal move (Pending to Completed) returns false
but does NOT leave the task unmutated: `atomic` refreshes `updated_at` on exit
of the `with` block even when the transition was refused. -/
theorem updateStatus_illegal_still_mutates :
    (updateStatus sampleTask .completed 5).2 = false ∧
      (updateStatus sampleTask .completed 5).1 ≠ sampleTask := by
  refine ⟨rfl, fun h => ?_⟩
  have h5 : (updateStatus sampleTask .completed 5).1.updatedAt = sampleTask.updatedAt :=
    congrArg TranscriptionTask.updatedAt h
  have hl : (updateStatus sampleTask .completed 5).1.updatedAt = 5 := rfl
  have hr : sampleTask.updatedAt = 0 := rfl
  rw [hl, hr] at h5
  exact absurd h5 (by decide)

/-- C1 (amended): `update_status` succeeds exactly when the target is listed
for the current status in the section 4.4 table; an illegal move returns false
and leaves every field except `updated_at` unchanged, but `updated_at` is
refreshed even then (the `atomic` context manager stamps it on exit); a
successful move updates the status and `updated_at` together. -/
theorem updateStatus_matches_transition_table
    (t : TranscriptionTask) (new : TaskStatus) (now : Nat) :
    ((updateStatus t new now).2 = true ↔ specLegalTransition t.status new) ∧
      ((updateStatus t new now).2 = false →
        (updateStatus t new now).1 = { t with updatedAt := now }) ∧
      ((updateStatus t new now).2 = true →
        (updateStatus t new now).1 = { t with status := new, updatedAt := now }) := by
  refine ⟨?_, ?_, ?_⟩
  · rw [updateStatus_snd]; exact canTransitionTo_iff_spec _ _
  · intro h
    by_cases hc : t.status.canTransitionTo new <;> simp [updateStatus, hc] at h ⊢
  · intro h
    by_cases hc : t.status.canTransitionTo new <;> simp [updateStatus, hc] at h ⊢

/-- C1 witness: the legal move Pending to Downloading at a concrete task. -/
theorem updateStatus_matches_transition_table_witness :
    (updateStatus sampleTask .downloading 7).1 =
      { sampleTask with status := .downloading, updatedAt := 7 } :=
  (updateStatus_matches_transition_table sampleTask .downloading 7).2.2 rfl

/-- C10: a successful `update_status` changes only `status` and `updated_at`;
`id`, `url`, `created_at`, `stats`, `metadata` and `errors` are untouched. -/
theorem updateStatus_frame (t : TranscriptionTask) (new : TaskStatus) (now : Nat)
    (h : (updateStatus t new now).2 = true) :
    (updateStatus t new now).1.id = t.id ∧
      (updateStatus t new now).1.url = t.url ∧
      (updateStatus t new now).1.createdAt = t.createdAt ∧
      (updateStatus t new now).1.stats = t.stats ∧
      (updateStatus t new now).1.metadata = t.metadata ∧
      (updateStatus t new now).1.errors = t.errors := by
  by_cases hc : t.status.canTransitionTo new <;> simp [updateStatus, hc]

/-- C10 witness: the frame condition at the concrete legal move
Pending to Downloading. -/
theorem updateStatus_frame_witness :
    (updateStatus sampleTask .downloading 7).2 = true ∧
      (updateStatus sampleTask .downloading 7).1.stats = sampleTask.stats ∧
      (updateStatus sampleTask .downloading 7).1.errors = sampleTask.errors :=
  ⟨rfl, (updateStatus_frame sampleTask .downloading 7 rfl).2.2.2.1,
    (updateStatus_frame sampleTask .downloading 7 rfl).2.2.2.2.2⟩

/-! ## Worker pool registry: `TranscriptionManager.add_task` (`manager.py` lines 58-81) -/

/-- `TranscriptionTask(url=url, created_at=datetime.now())`: the freshly
constructed Pending task (`id` is a fresh uuid, supplied here as a parameter). -/
def mkTask (url taskId : String) (now : Nat) : TranscriptionTask :=
  { id := taskId, url := url, status := .pending, createdAt := now, updatedAt := now,
    stats := { progress := 0, totalBytes := 0, downloadedBytes := 0, speed := 0 },
    metadata := { downloadCompletedAt := none, chunkDuration := none, chunkCount := none },
    errors := [] }

/-- The manager's registry (`self.tasks`) and bounded queue
(`queue.Queue(maxsize=config.worker.max_queue_size)`). -/
structure ManagerState where
  tasks : List TranscriptionTask
  queue : List TranscriptionTask
  maxQueueSize : Nat

/-- `queue.put(task, block=False)` raises `queue.Full` exactly when the queue
has a positive maxsize and is at capacity (a non-positive maxsize means an
unbounded queue in Python). -/
def queueFull (st : ManagerState) : Bool :=
  decide (0 < st.maxQueueSize) && decide (st.maxQueueSize ≤ st.queue.length)

/-- `TranscriptionManager.add_task`: de-duplicate by URL under the lock,
append a Pending task to the registry, then try a non-blocking queue put;
on `queue.Full` remove the task from the registry again and return None. -/
def addTask (st : ManagerState) (url taskId : String) (now : Nat) :
    Option TranscriptionTask × ManagerState :=
  if st.tasks.any (fun t => t.url == url) then
    (none, st)
  else
    let task := mkTask url taskId now
    let st1 := { st with tasks := st.tasks ++ [task] }
    if queueFull st1 then
      (none, { st1 with tasks := st1.tasks.erase task })
    else
      (some task, { st1 with queue := st1.queue ++ [task] })

/-- C6: duplicate URLs are refused with no state change; a queue-full failure
restores the registry exactly (the just-created task is erased again) and
leaves the queue unchanged; otherwise the Pending task is appended to both the
registry and the queue; and URL-uniqueness of the registry is preserved. -/
theorem addTask_spec (st : ManagerState) (url taskId : String) (now : Nat)
    (hfresh : mkTask url taskId now ∉ st.tasks) :
    ((∃ t ∈ st.tasks, t.url = url) → addTask st url taskId now = (none, st)) ∧
      ((¬ ∃ t ∈ st.tasks, t.url = url) → queueFull st = true →
        (addTask st url taskId now).1 = none ∧
          (addTask st url taskId now).2.tasks = st.tasks ∧
          (addTask st url taskId now).2.queue = st.queue) ∧
      ((¬ ∃ t ∈ st.tasks, t.url = url) → queueFull st = false →
        (addTask st url taskId now).1 = some (mkTask url taskId now) ∧
          (mkTask url taskId now).status = .pending ∧
          (addTask st url taskId now).2.tasks = st.tasks ++ [mkTask url taskId now] ∧
          (addTask st url taskId now).2.queue = st.queue ++ [mkTask url taskId now]) ∧
      (st.tasks.Pairwise (fun a b => a.url ≠ b.url) →
        (addTask st url taskId now).2.tasks.Pairwise (fun a b => a.url ≠ b.url)) := by
  have hq : queueFull { st with tasks := st.tasks ++ [mkTask url taskId now] } = queueFull st := rfl
  have herase : (st.tasks ++ [mkTask url taskId now]).erase (mkTask url taskId now) = st.tasks := by
    rw [List.erase_append_right _ hfresh, List.erase_cons_head, List.append_nil]
  refine ⟨?_, ?_, ?_, ?_⟩
  · rintro ⟨t, ht, hturl⟩
    have hany : st.tasks.any (fun t => t.url == url) = true :=
      List.any_eq_true.mpr ⟨t, ht, by simpa using hturl⟩
    simp [addTask, hany]
  · intro hdup hfull
    have hany : st.tasks.any (fun t => t.url == url) = false := by
      rw [List.any_eq_false]
      intro t ht
      simpa using fun h => hdup ⟨t, ht, h⟩
    simp [addTask, hany, hq, hfull, herase]
  · intro hdup hfull
    have hany : st.tasks.any (fun t => t.url == url) = false := by
      rw [List.any_eq_false]
      intro t ht
      simpa using fun h => hdup ⟨t, ht, h⟩
    have hstat : (mkTask url taskId now).status = .pending := rfl
    simp [addTask, hany, hq, hfull, hstat]
  · intro hpair
    by_cases hany : st.tasks.any (fun t => t.url == url) = true
    · simpa [addTask, hany] using hpair
    · have hany' : st.tasks.any (fun t => t.url == url) = false := by
        simpa using hany
      have hnew : ∀ t ∈ st.tasks, t.url ≠ url := by
        intro t ht
        have := List.any_eq_false.mp hany' t ht
        simpa using this
      have happ : (st.tasks ++ [mkTask url taskId now]).Pairwise (fun a b => a.url ≠ b.url) := by
        rw [List.pairwise_append]
        exact ⟨hpair, List.pairwise_singleton _ _,
          fun a ha b hb => by
            simp only [List.mem_singleton] at hb
            subst hb
            simpa [mkTask] using hnew a ha⟩
      by_cases hfull : queueFull st = true
      · simpa [addTask, hany', hq, hfull, herase] using hpair
      · have hfull' : queueFull st = false := by simpa using hfull
        simpa [addTask, hany', hq, hfull'] using happ

/-- C6 witness: submitting to an empty registry with a one-slot free queue. -/
theorem addTask_spec_witness :
    (addTask ⟨[], [], 1⟩ "https://example/video" "t9" 3).1 = some (mkTask "https://example/video" "t9" 3) ∧
      (addTask ⟨[], [], 1⟩ "https://example/video" "t9" 3).2.queue = [mkTask "https://example/video" "t9" 3] :=
  have h := (addTask_spec ⟨[], [], 1⟩ "https://example/video" "t9" 3 (by simp)).2.2.1
    (by simp) rfl
  ⟨h.1, by simpa using h.2.2.2⟩

/-! ## Rate limiter: `RateLimit.can_request` (`audio_transcriber.py` lines 24-46)

Wall-clock instants are rationals (seconds). -/

structure RateLimit where
  windowSeconds : ℚ
  maxRequests : Nat
  requests : List ℚ

/-- `RateLimit.can_request`: prune the recorded timestamps to those strictly
within the window, admit iff fewer than `max_requests` remain (recording
`now`), otherwise report the wait until the oldest in-window entry expires.
On refusal Python reads `self.requests[0]`; `headI` returns the same value
because refusal forces the pruned list nonempty whenever `max_requests > 0`
(with `max_requests = 0` and no requests Python would raise `IndexError`). -/
def prunedRequests (rl : RateLimit) (now : ℚ) : List ℚ :=
  rl.requests.filter (fun t => decide (now - t < rl.windowSeconds))

def canRequest (rl : RateLimit) (now : ℚ) : (Bool × ℚ) × RateLimit :=
  if (prunedRequests rl now).length < rl.maxRequests then
    ((true, 0), { rl with requests := prunedRequests rl now ++ [now] })
  else
    ((false, max 0 (rl.windowSeconds - (now - (prunedRequests rl now).headI))),
      { rl with requests := prunedRequests rl now })

/-- Trace harness: issue one `can_request` per element of `calls` (the call
instants, in order) and collect the final state together with the list of
admitted instants. -/
def rlRun (rl : RateLimit) : List ℚ → RateLimit × List ℚ
  | [] => (rl, [])
  | c :: cs =>
    ((rlRun (canRequest rl c).2 cs).1,
      (if (canRequest rl c).1.1 then [c] else []) ++ (rlRun (canRequest rl c).2 cs).2)

lemma canRequest_windowSeconds (rl : RateLimit) (now : ℚ) :
    (canRequest rl now).2.windowSeconds = rl.windowSeconds := by
  unfold canRequest
  split <;> rfl

lemma canRequest_maxRequests (rl : RateLimit) (now : ℚ) :
    (canRequest rl now).2.maxRequests = rl.maxRequests := by
  unfold canRequest
  split <;> rfl

lemma rlRun_windowSeconds (rl : RateLimit) (cs : List ℚ) :
    (rlRun rl cs).1.windowSeconds = rl.windowSeconds := by
  induction cs generalizing rl with
  | nil => rfl
  | cons c cs ih => rw [rlRun, ih, canRequest_windowSeconds]

lemma rlRun_maxRequests (rl : RateLimit) (cs : List ℚ) :
    (rlRun rl cs).1.maxRequests = rl.maxRequests := by
  induction cs generalizing rl with
  | nil => rfl
  | cons c cs ih => rw [rlRun, ih, canRequest_maxRequests]

lemma canRequest_admit_iff (rl : RateLimit) (now : ℚ) :
    (canRequest rl now).1.1 = true ↔ (prunedRequests rl now).length < rl.maxRequests := by
  unfold canRequest
  split <;> simp_all

lemma canRequest_admitted (rl : RateLimit) (now : ℚ)
    (h : (prunedRequests rl now).length < rl.maxRequests) :
    (canRequest rl now).1 = (true, 0) ∧
      (canRequest rl now).2.requests = prunedRequests rl now ++ [now] := by
  unfold canRequest
  rw [if_pos h]
  exact ⟨rfl, rfl⟩

lemma canRequest_refused (rl : RateLimit) (now : ℚ)
    (h : ¬ (prunedRequests rl now).length < rl.maxRequests) :
    (canRequest rl now).1 =
        (false, max 0 (rl.windowSeconds - (now - (prunedRequests rl now).headI))) ∧
      (canRequest rl now).2.requests = prunedRequests rl now := by
  unfold canRequest
  rw [if_neg h]
  exact ⟨rfl, rfl⟩

lemma rlRun_append (rl : RateLimit) (cs : List ℚ) (c : ℚ) :
    rlRun rl (cs ++ [c]) =
      ((canRequest (rlRun rl cs).1 c).2,
        (rlRun rl cs).2 ++ if (canRequest (rlRun rl cs).1 c).1.1 then [c] else []) := by
  induction cs generalizing rl with
  | nil => simp [rlRun]
  | cons d cs ih =>
    simp only [List.cons_append, rlRun, List.append_eq, ih, List.append_assoc]

/-- After a monotone run from an empty history, the recorded timestamps are
exactly the admitted instants still inside the window of the last call. -/
lemma rlRun_requests_char (w : ℚ) (m : Nat) (hw : 0 < w) (cs : List ℚ)
    (hcs : cs.Sorted (· ≤ ·)) :
    (rlRun ⟨w, m, []⟩ cs).1.requests =
      (rlRun ⟨w, m, []⟩ cs).2.filter (fun t => decide (cs.getLastD 0 - t < w)) := by
  induction cs using List.reverseRecOn with
  | nil => rfl
  | append_singleton cs c ih =>
    have hcs' : cs.Sorted (· ≤ ·) := by
      rcases (List.pairwise_append.mp hcs) with ⟨h1, _, _⟩
      exact h1
    have hle : ∀ x ∈ cs, x ≤ c := by
      rcases (List.pairwise_append.mp hcs) with ⟨_, _, h3⟩
      intro x hx
      exact h3 x hx c (List.mem_singleton_self c)
    have ihc := ih hcs'
    have hlast : (cs ++ [c]).getLastD 0 = c := List.getLastD_concat 0 c cs
    have hwin := rlRun_windowSeconds ⟨w, m, []⟩ cs
    have hpr : prunedRequests (rlRun ⟨w, m, []⟩ cs).1 c =
        (rlRun ⟨w, m, []⟩ cs).2.filter (fun t => decide (c - t < w)) := by
      unfold prunedRequests
      rw [hwin, ihc, List.filter_filter]
      refine List.filter_congr ?_
      intro t ht
      rcases eq_or_ne cs [] with hnil | hnil
      · subst hnil
        simp [rlRun] at ht
      · have hlastmem : cs.getLastD 0 ∈ cs := by
          rw [List.getLastD_eq_getLast?, List.getLast?_eq_getLast cs hnil]
          exact List.getLast_mem hnil
        have hlastle : cs.getLastD 0 ≤ c := hle _ hlastmem
        by_cases hct : c - t < w
        · have h2 : cs.getLastD 0 - t < w := lt_of_le_of_lt (by linarith) hct
          rw [List.getLastD_eq_getLast?] at h2
          simp [hct, h2]
        · simp [hct]
    rw [rlRun_append, hlast]
    by_cases hadm : (prunedRequests (rlRun ⟨w, m, []⟩ cs).1 c).length <
        (rlRun ⟨w, m, []⟩ cs).1.maxRequests
    · have hc := canRequest_admitted _ _ hadm
      have hflag : (canRequest (rlRun ⟨w, m, []⟩ cs).1 c).1.1 = true := by rw [hc.1]
      simp only [hflag, if_true, hc.2, hpr, List.filter_append]
      have : List.filter (fun t => decide (c - t < w)) [c] = [c] := by
        simp [hw]
      rw [this]
    · have hc := canRequest_refused _ _ hadm
      have hflag : (canRequest (rlRun ⟨w, m, []⟩ cs).1 c).1.1 = false := by rw [hc.1]
      simp only [hflag, if_false, Bool.false_eq_true, hc.2, hpr, List.filter_append]
      simp

/-- Sliding-window safety: over any monotone run from an empty history, at
most `max_requests` admitted instants fall in any half-open window
`(s, s + window]`. -/
lemma rlRun_window_bound (w : ℚ) (m : Nat) (hw : 0 < w) (cs : List ℚ)
    (hcs : cs.Sorted (· ≤ ·)) (s : ℚ) :
    (rlRun ⟨w, m, []⟩ cs).2.countP (fun t => decide (s < t ∧ t ≤ s + w)) ≤ m := by
  induction cs using List.reverseRecOn with
  | nil => simp [rlRun]
  | append_singleton cs c ih =>
    have hcs' : cs.Sorted (· ≤ ·) := by
      rcases (List.pairwise_append.mp hcs) with ⟨h1, _, _⟩
      exact h1
    have hle : ∀ x ∈ cs, x ≤ c := by
      rcases (List.pairwise_append.mp hcs) with ⟨_, _, h3⟩
      intro x hx
      exact h3 x hx c (List.mem_singleton_self c)
    have ihb := ih hcs'
    have hwin := rlRun_windowSeconds ⟨w, m, []⟩ cs
    have hmaxr := rlRun_maxRequests ⟨w, m, []⟩ cs
    have hpr : prunedRequests (rlRun ⟨w, m, []⟩ cs).1 c =
        (rlRun ⟨w, m, []⟩ cs).2.filter (fun t => decide (c - t < w)) := by
      unfold prunedRequests
      rw [hwin, rlRun_requests_char w m hw cs hcs', List.filter_filter]
      refine List.filter_congr ?_
      intro t ht
      rcases eq_or_ne cs [] with hnil | hnil
      · subst hnil
        simp [rlRun] at ht
      · have hlastmem : cs.getLastD 0 ∈ cs := by
          rw [List.getLastD_eq_getLast?, List.getLast?_eq_getLast cs hnil]
          exact List.getLast_mem hnil
        have hlastle : cs.getLastD 0 ≤ c := hle _ hlastmem
        by_cases hct : c - t < w
        · have h2 : cs.getLastD 0 - t < w := lt_of_le_of_lt (by linarith) hct
          rw [List.getLastD_eq_getLast?] at h2
          simp [hct, h2]
        · simp [hct]
    rw [rlRun_append]
    by_cases hadm : (prunedRequests (rlRun ⟨w, m, []⟩ cs).1 c).length <
        (rlRun ⟨w, m, []⟩ cs).1.maxRequests
    · have hc := canRequest_admitted _ _ hadm
      have hflag : (canRequest (rlRun ⟨w, m, []⟩ cs).1 c).1.1 = true := by rw [hc.1]
      simp only [hflag, if_true, List.countP_append]
      by_cases hcwin : s < c ∧ c ≤ s + w
      · have hlen :
            ((rlRun ⟨w, m, []⟩ cs).2.filter (fun t => decide (c - t < w))).length < m := by
          rw [← hpr]
          rw [hmaxr] at hadm
          exact hadm
        have hmono :
            (rlRun ⟨w, m, []⟩ cs).2.countP (fun t => decide (s < t ∧ t ≤ s + w)) ≤
              (rlRun ⟨w, m, []⟩ cs).2.countP (fun t => decide (c - t < w)) := by
          refine List.countP_mono_left ?_
          intro t _ ht
          have ht' : s < t ∧ t ≤ s + w := by simpa using ht
          have hcw : c ≤ s + w := hcwin.2
          have : c - t < w := by
            have := ht'.1
            linarith
          simpa using this
        have hcount :
            (rlRun ⟨w, m, []⟩ cs).2.countP (fun t => decide (s < t ∧ t ≤ s + w)) < m := by
          calc (rlRun ⟨w, m, []⟩ cs).2.countP (fun t => decide (s < t ∧ t ≤ s + w))
              ≤ (rlRun ⟨w, m, []⟩ cs).2.countP (fun t => decide (c - t < w)) := hmono
            _ = ((rlRun ⟨w, m, []⟩ cs).2.filter (fun t => decide (c - t < w))).length :=
                List.countP_eq_length_filter _ _
            _ < m := hlen
        have hone : List.countP (fun t => decide (s < t ∧ t ≤ s + w)) [c] ≤ 1 := by
          simp only [List.countP_cons, List.countP_nil, decide_eq_true_eq]
          split <;> omega
        omega
      · have hzero : List.countP (fun t => decide (s < t ∧ t ≤ s + w)) [c] = 0 := by
          simp [List.countP_cons, hcwin]
        omega
    · have hc := canRequest_refused _ _ hadm
      have hflag : (canRequest (rlRun ⟨w, m, []⟩ cs).1 c).1.1 = false := by rw [hc.1]
      simpa [hflag] using ihb

/-- C5: per call, `can_request` admits exactly when fewer than `max_requests`
recorded timestamps are strictly within the window; admission records `now`
and returns wait 0; refusal records nothing new and returns
`max 0 (window − (now − oldest))` where `oldest` is the minimum in-window
timestamp; and along any monotone run from an empty history, the admissions
inside any half-open window of length `window_seconds` never exceed
`max_requests`. -/
theorem rateLimit_canRequest_spec (rl : RateLimit) (now : ℚ) (w : ℚ) (m : Nat)
    (cs : List ℚ) (hsorted : rl.requests.Sorted (· ≤ ·)) (hmax : 0 < rl.maxRequests)
    (hw : 0 < w) (hcs : cs.Sorted (· ≤ ·)) :
    ((canRequest rl now).1.1 = true ↔
        rl.requests.countP (fun t => decide (now - t < rl.windowSeconds)) < rl.maxRequests) ∧
      ((canRequest rl now).1.1 = true →
        (canRequest rl now).1.2 = 0 ∧
          (canRequest rl now).2.requests =
            rl.requests.filter (fun t => decide (now - t < rl.windowSeconds)) ++ [now]) ∧
      ((canRequest rl now).1.1 = false →
        (canRequest rl now).2.requests =
            rl.requests.filter (fun t => decide (now - t < rl.windowSeconds)) ∧
          ∃ oldest ∈ rl.requests.filter (fun t => decide (now - t < rl.windowSeconds)),
            (∀ u ∈ rl.requests.filter (fun t => decide (now - t < rl.windowSeconds)),
              oldest ≤ u) ∧
            (canRequest rl now).1.2 = max 0 (rl.windowSeconds - (now - oldest))) ∧
      (∀ s : ℚ,
        (rlRun ⟨w, m, []⟩ cs).2.countP (fun t => decide (s < t ∧ t ≤ s + w)) ≤ m) := by
  have hfilter : prunedRequests rl now =
      rl.requests.filter (fun t => decide (now - t < rl.windowSeconds)) := rfl
  refine ⟨?_, ?_, ?_, fun s => rlRun_window_bound w m hw cs hcs s⟩
  · rw [canRequest_admit_iff, hfilter, List.countP_eq_length_filter]
  · intro h
    have hadm : (prunedRequests rl now).length < rl.maxRequests :=
      (canRequest_admit_iff rl now).mp h
    have hc := canRequest_admitted rl now hadm
    rw [hc.1, hc.2, hfilter]
    exact ⟨rfl, rfl⟩
  · intro h
    have hadm : ¬ (prunedRequests rl now).length < rl.maxRequests := by
      intro hcontra
      rw [(canRequest_admit_iff rl now).mpr hcontra] at h
      simp at h
    have hc := canRequest_refused rl now hadm
    have hnonempty : prunedRequests rl now ≠ [] := by
      intro hempty
      rw [hempty] at hadm
      simp at hadm
      omega
    refine ⟨by rw [hc.2, hfilter], ?_⟩
    rcases hfe : prunedRequests rl now with _ | ⟨a, rest⟩
    · exact absurd hfe hnonempty
    · have hfilter2 : rl.requests.filter (fun t => decide (now - t < rl.windowSeconds)) =
          a :: rest := by
        rw [← hfilter, hfe]
      have hsorted2 : (a :: rest).Sorted (· ≤ ·) := by
        rw [← hfe]
        exact hsorted.filter _
      refine ⟨a, ?_, ?_, ?_⟩
      · rw [hfilter2]
        exact List.mem_cons_self a rest
      · intro u hu
        rw [hfilter2] at hu
        rcases List.mem_cons.mp hu with h1 | h2
        · exact le_of_eq h1.symm
        · exact (List.sorted_cons.mp hsorted2).1 u h2
      · rw [hc.1, hfe]
        rfl

/-- C5 witness: a fresh limiter (window 50, limit 2) admits a request at time
0 with wait 0, and the two-call monotone run admits at most 2 per window. -/
theorem rateLimit_canRequest_spec_witness :
    (canRequest ⟨50, 2, []⟩ 0).1.1 = true ∧
      (rlRun ⟨(50 : ℚ), 2, []⟩ [0, 1]).2.countP
          (fun t => decide ((0 : ℚ) < t ∧ t ≤ 0 + 50)) ≤ 2 :=
  have h := rateLimit_canRequest_spec ⟨50, 2, []⟩ 0 50 2 [0, 1] (by simp)
    (by decide) (by norm_num) (by simp [List.sorted_cons])
  ⟨h.1.mpr (by simp [prunedRequests]), h.2.2.2 0⟩

/-! ## Overall progress: `TranscriptionService.calculate_overall_progress`
(`transcription_service.py` lines 33-72) -/

/-- The `stage_weights` dict (only four stages are keys; `.get(status, 0.0)`
yields 0 for every other status). -/
def stageWeights : TaskStatus → ℚ
  | .downloading => 1/5
  | .splitting => 1/10
  | .transcribing => 3/5
  | .merging => 1/10
  | _ => 0

/-- The dict's key list, in insertion order. -/
def weightStages : List TaskStatus :=
  [.downloading, .splitting, .transcribing, .merging]

/-- Python string `<` (code-point lexicographic), as used by
`stage.value < task.status.value`. -/
def pyStrLt (a b : String) : Bool :=
  decide (a.data < b.data)

/-- `calculate_overall_progress`: 100 for Completed, the raw stage progress
for Failed, else the weighted sum over dict entries whose *string value*
compares below the current status's string value (excluding FAILED, which is
not a key anyway), plus the current stage share, scaled by 100 and capped at
99.9. -/
def calculateOverallProgress (status : TaskStatus) (progress : ℚ) : ℚ :=
  if status = .completed then 100
  else if status = .failed then progress
  else if stageWeights status = 0 then 0
  else
    min (999/10)
      ((((weightStages.filter (fun s =>
            pyStrLt (statusValue s) (statusValue status) &&
              decide (s ≠ TaskStatus.failed))).map stageWeights).sum +
          progress / 100 * stageWeights status) * 100)

/-- C3: the "completed stages" sum compares status *names* lexicographically,
and "Merging" sorts before "Splitting" and "Transcribing"; so at the Merging
stage only Downloading's weight (0.20) counts and the overall progress is
20.0, not the 90.0 the pipeline-order formula of the claim requires.  Failed
is not capped either: a task failing at stage progress 100 reports 100. -/
theorem calculateOverallProgress_lexicographic_bug :
    calculateOverallProgress .merging 0 = 20 ∧ (20 : ℚ) ≠ 90 ∧
      calculateOverallProgress .failed 100 = 100 ∧
      ¬ ((100 : ℚ) ≤ 999/10) := by
  refine ⟨?_, by norm_num, ?_, by norm_num⟩
  · unfold calculateOverallProgress
    rw [if_neg (by decide), if_neg (by decide), if_neg (by norm_num [stageWeights])]
    have hfilt : weightStages.filter (fun s =>
        pyStrLt (statusValue s) (statusValue .merging) &&
          decide (s ≠ TaskStatus.failed)) = [TaskStatus.downloading] := by decide
    rw [hfilt]
    norm_num [stageWeights, min_def]
  · unfold calculateOverallProgress
    rw [if_neg (by decide), if_pos rfl]

/-! ## Per-stage progress updates (`splitter.py` line 142,
`audio_transcriber.py` line 260, `downloader.py` lines 105-145) -/

/-- Splitter progress after chunk `i` of `num`:
`min((i + 1) / num_chunks * 100, 99.9)`. -/
def splitterProgress (num i : Nat) : ℚ :=
  min (((i : ℚ) + 1) / num * 100) (999/10)

/-- Transcriber progress after `done` of `total` chunks:
`min((done / total_chunks) * 100, 99.9)` where `done = i + len(batch)`. -/
def transcriberProgress (total done : Nat) : ℚ :=
  min ((done : ℚ) / total * 100) (999/10)

/-- A yt-dlp progress event as seen by `_create_progress_hook`. -/
inductive DlEvent where
  | downloading (total downloaded : Nat) (speed : ℚ)
  | finished

/-- `_create_progress_hook`: on a `downloading` event store the byte counters
and, when a total is known, set progress to `downloaded / total * 100`; on a
`finished` event set progress to 100.0 and stamp `download_completed_at`. -/
def progressHook (t : TranscriptionTask) (e : DlEvent) (now : Nat) : TranscriptionTask :=
  match e with
  | .downloading total downloaded speed =>
    let t1 := { t with stats :=
      { t.stats with totalBytes := total, downloadedBytes := downloaded, speed := speed } }
    if 0 < total then updateProgress t1 ((downloaded : ℚ) / total * 100) now
    else { t1 with updatedAt := now }
  | .finished =>
    let t1 := updateProgress t 100 now
    { t1 with metadata := { t1.metadata with downloadCompletedAt := some now } }

/-- A task mid-download (status Downloading, progress 50). -/
def downloadingTask : TranscriptionTask :=
  { id := "t2", url := "https://example/video2", status := .downloading,
    createdAt := 0, updatedAt := 1,
    stats := { progress := 50, totalBytes := 1000, downloadedBytes := 500, speed := 1 },
    metadata := { downloadCompletedAt := none, chunkDuration := none, chunkCount := none },
    errors := [] }

lemma progressHook_downloading_progress (t : TranscriptionTask) (total downloaded : Nat)
    (speed : ℚ) (now : Nat) (h : 0 < total) :
    (progressHook t (.downloading total downloaded speed) now).stats.progress =
      min (max ((downloaded : ℚ) / total * 100) 0) 100 := by
  simp only [progressHook]
  rw [if_pos h]
  rfl

lemma div_mul_hundred_mono {a b : ℚ} (c : ℚ) (hab : a ≤ b) (hc : 0 ≤ c) :
    a / c * 100 ≤ b / c * 100 := by
  have h2 : a / c ≤ b / c := by
    rw [div_eq_mul_inv, div_eq_mul_inv]
    exact mul_le_mul_of_nonneg_right hab (inv_nonneg.mpr hc)
  exact mul_le_mul_of_nonneg_right h2 (by norm_num)

/-- C7 (counterexample): the reachable state right after the downloader's
`finished` event has status Downloading (not yet Completed) but
`stats.progress = 100 > 99.9`, refuting the 99.9 cap for non-Completed
states. -/
theorem progress_cap_violated_on_finish :
    (progressHook downloadingTask .finished 3).status ≠ .completed ∧
      (progressHook downloadingTask .finished 3).stats.progress = 100 ∧
      ¬ ((progressHook downloadingTask .finished 3).stats.progress ≤ 999/10) := by
  have hp : (progressHook downloadingTask .finished 3).stats.progress =
      min (max (100 : ℚ) 0) 100 := rfl
  refine ⟨by decide, ?_, ?_⟩
  · rw [hp]; norm_num
  · rw [hp]; norm_num

/-- C7 (amended): progress is non-decreasing across the updates issued within
a stage (for the download stage, provided the reported total stays fixed and
the downloaded byte count does not shrink), and the splitting and transcribing
updates stay at or below 99.9; the download stage however finishes by setting
progress to 100.0 while the status is still Downloading, so the 99.9 cap
holds only until the download-finished event, not until Completed. -/
theorem stage_progress_monotone (num total i j a b : Nat)
    (t : TranscriptionTask) (bytesTotal d1 d2 : Nat) (s1 s2 : ℚ) (n1 n2 : Nat)
    (hij : i ≤ j) (hab : a ≤ b) (hd : d1 ≤ d2) (hbt : 0 < bytesTotal) :
    (splitterProgress num i ≤ splitterProgress num j ∧
        splitterProgress num i ≤ 999/10) ∧
      (transcriberProgress total a ≤ transcriberProgress total b ∧
        transcriberProgress total a ≤ 999/10) ∧
      ((progressHook t (.downloading bytesTotal d1 s1) n1).stats.progress ≤
        (progressHook (progressHook t (.downloading bytesTotal d1 s1) n1)
          (.downloading bytesTotal d2 s2) n2).stats.progress) ∧
      (∀ (u : TranscriptionTask) (now : Nat),
        (progressHook u .finished now).stats.progress = 100) := by
  refine ⟨⟨?_, min_le_right _ _⟩, ⟨?_, min_le_right _ _⟩, ?_, ?_⟩
  · refine min_le_min ?_ le_rfl
    refine div_mul_hundred_mono _ ?_ (Nat.cast_nonneg num)
    have : (i : ℚ) ≤ (j : ℚ) := by exact_mod_cast hij
    linarith
  · refine min_le_min ?_ le_rfl
    exact div_mul_hundred_mono _ (by exact_mod_cast hab) (Nat.cast_nonneg total)
  · rw [progressHook_downloading_progress _ _ _ _ _ hbt,
      progressHook_downloading_progress _ _ _ _ _ hbt]
    refine min_le_min (max_le_max ?_ le_rfl) le_rfl
    exact div_mul_hundred_mono _ (by exact_mod_cast hd) (Nat.cast_nonneg bytesTotal)
  · intro u now
    have hp : (progressHook u .finished now).stats.progress =
        min (max (100 : ℚ) 0) 100 := rfl
    rw [hp]; norm_num

/-- C7 witness: the amended statement at concrete stage positions (chunk 0
then 1 of 3, bytes 10 then 20 of 100). -/
theorem stage_progress_monotone_witness :
    splitterProgress 3 0 ≤ splitterProgress 3 1 ∧
      (progressHook downloadingTask .finished 9).stats.progress = 100 :=
  have h := stage_progress_monotone 3 3 0 1 0 1 downloadingTask 100 10 20 0 0 4 5
    (by decide) (by decide) (by decide) (by decide)
  ⟨h.1.1, h.2.2.2 downloadingTask 9⟩

/-! ## Splitter chunk plan: `AudioSplitter.split_audio` and
`format_timestamp_for_filename` (`splitter.py` lines 58-234) -/

/-- Python `{n:02d}`: zero-pad to at least two digits. -/
def pad2 (n : Nat) : String :=
  if n < 10 then "0" ++ toString n else toString n

/-- Python `{n:03d}`: zero-pad to at least three digits (for `n ≤ 999` exactly
the three decimal digits; larger values print in full). -/
def pad3 (n : Nat) : String :=
  if n ≤ 999 then
    String.mk [Nat.digitChar (n / 100), Nat.digitChar (n / 10 % 10), Nat.digitChar (n % 10)]
  else toString n

/-- `format_timestamp_for_filename`: truncate to whole seconds, divmod into
hours/minutes/seconds, and take the truncated fractional milliseconds
(`int((total_seconds - int_total) * 1000)`).  `int` truncation equals
`Nat.floor` on the non-negative inputs the splitter produces. -/
def fmtTs (s : ℚ) : String :=
  pad2 (⌊s⌋₊ / 3600) ++ "_" ++ pad2 (⌊s⌋₊ % 3600 / 60) ++ "_" ++
    pad2 (⌊s⌋₊ % 3600 % 60) ++ "_" ++ pad3 ⌊(s - ⌊s⌋₊) * 1000⌋₊

/-- Modelled from the spec: `fmt_ts` renders the time as `HH_MM_SS_mmm`,
i.e. whole hours, minutes-of-hour, seconds-of-minute and
milliseconds-of-second, each zero padded. -/
def specFmtTs (s : ℚ) : String :=
  pad2 ⌊s / 3600⌋₊ ++ "_" ++ pad2 (⌊s / 60⌋₊ % 60) ++ "_" ++
    pad2 (⌊s⌋₊ % 60) ++ "_" ++ pad3 (⌊s * 1000⌋₊ % 1000)

/-- `chunk_duration = task.metadata.processing.get('chunk_duration',
self.chunk_duration_sec)`. -/
def effectiveChunkDuration (meta : TaskMetadata) (cfgDefault : ℚ) : ℚ :=
  meta.chunkDuration.getD cfgDefault

/-- `num_chunks = max(1, math.ceil(total_duration / chunk_duration))`. -/
def numChunks (duration chunkDuration : ℚ) : Nat :=
  max 1 ⌈duration / chunkDuration⌉.toNat

/-- `chunk_filename = f"chunk_{i:03d}_{start_timestamp}_{end_timestamp}.{fmt}"`. -/
def chunkFilename (fmt : String) (i : Nat) (startT endT : ℚ) : String :=
  "chunk_" ++ pad3 i ++ "_" ++ fmtTs startT ++ "_" ++ fmtTs endT ++ "." ++ fmt

structure ChunkPlanEntry where
  index : Nat
  startTime : ℚ
  endTime : ℚ
  filename : String
deriving DecidableEq

/-- The chunk plan of `split_audio`'s loop: for each
`i ∈ range(num_chunks)`, `start = i * chunk_duration`,
`end = min((i + 1) * chunk_duration, total_duration)`, and the filename built
from the two formatted timestamps. -/
def splitPlan (duration chunkDuration : ℚ) (fmt : String) : List ChunkPlanEntry :=
  (List.range (numChunks duration chunkDuration)).map (fun i =>
    { index := i,
      startTime := (i : ℚ) * chunkDuration,
      endTime := min (((i : ℚ) + 1) * chunkDuration) duration,
      filename := chunkFilename fmt i ((i : ℚ) * chunkDuration)
        (min (((i : ℚ) + 1) * chunkDuration) duration) })

lemma fmtTs_eq_specFmtTs (s : ℚ) (hs : 0 ≤ s) : fmtTs s = specFmtTs s := by
  unfold fmtTs specFmtTs
  have h3600 : ⌊s / (3600 : ℚ)⌋₊ = ⌊s⌋₊ / 3600 := by
    have h := Nat.floor_div_nat s 3600
    simpa using h
  have h60 : ⌊s / (60 : ℚ)⌋₊ = ⌊s⌋₊ / 60 := by
    have h := Nat.floor_div_nat s 60
    simpa using h
  have hmin : ⌊s⌋₊ % 3600 / 60 = ⌊s⌋₊ / 60 % 60 := by omega
  have hsec : ⌊s⌋₊ % 3600 % 60 = ⌊s⌋₊ % 60 := by omega
  have hfl : (⌊s⌋₊ : ℚ) ≤ s := Nat.floor_le hs
  have hfu : s < ⌊s⌋₊ + 1 := Nat.lt_floor_add_one s
  have hms : ⌊(s - ⌊s⌋₊) * 1000⌋₊ = ⌊s * 1000⌋₊ % 1000 := by
    have hnn : (0 : ℚ) ≤ (s - ⌊s⌋₊) * 1000 :=
      mul_nonneg (by linarith) (by norm_num)
    have hsplit : s * 1000 = (s - ⌊s⌋₊) * 1000 + ((⌊s⌋₊ * 1000 : ℕ) : ℚ) := by
      push_cast
      ring
    have hadd : ⌊s * 1000⌋₊ = ⌊(s - ⌊s⌋₊) * 1000⌋₊ + ⌊s⌋₊ * 1000 := by
      rw [hsplit, Nat.floor_add_nat hnn]
    have hlt : ⌊(s - ⌊s⌋₊) * 1000⌋₊ < 1000 := by
      rw [Nat.floor_lt hnn]
      have h1 : s - ⌊s⌋₊ < 1 := by linarith
      push_cast
      nlinarith
    omega
  rw [h3600, h60, hmin, hsec, hms]

/-- C8: for positive probed duration `d` and effective chunk duration `c`
(the per-task `metadata.processing['chunk_duration']` override when present,
else the configured default), the splitter plans exactly
`max(1, ceil(d / c))` chunks; chunk `i` covers `i*c` to `min((i+1)*c, d)` and
is named `chunk_{i:03}_{fmt_ts(start)}_{fmt_ts(end)}.{fmt}` with `fmt_ts`
rendering `HH_MM_SS_mmm`. -/
theorem splitAudio_chunk_plan (d c : ℚ) (fmt : String) (meta : TaskMetadata)
    (cfg : ℚ) (hd : 0 < d) (hc : 0 < c) :
    (∀ q, meta.chunkDuration = some q → effectiveChunkDuration meta cfg = q) ∧
      (meta.chunkDuration = none → effectiveChunkDuration meta cfg = cfg) ∧
      (splitPlan d c fmt).length = max 1 ⌈d / c⌉.toNat ∧
      (∀ i (hi : i < (splitPlan d c fmt).length),
        ((splitPlan d c fmt).get ⟨i, hi⟩).index = i ∧
          ((splitPlan d c fmt).get ⟨i, hi⟩).startTime = (i : ℚ) * c ∧
          ((splitPlan d c fmt).get ⟨i, hi⟩).endTime = min (((i : ℚ) + 1) * c) d ∧
          ((splitPlan d c fmt).get ⟨i, hi⟩).filename =
            "chunk_" ++ pad3 i ++ "_" ++ specFmtTs ((i : ℚ) * c) ++ "_" ++
              specFmtTs (min (((i : ℚ) + 1) * c) d) ++ "." ++ fmt) := by
  refine ⟨?_, ?_, ?_, ?_⟩
  · intro q hq
    simp [effectiveChunkDuration, hq]
  · intro hq
    simp [effectiveChunkDuration, hq]
  · simp [splitPlan, numChunks]
  · intro i hi
    have hilen : i < numChunks d c := by
      simpa [splitPlan] using hi
    have hget : (splitPlan d c fmt).get ⟨i, hi⟩ =
        { index := i,
          startTime := (i : ℚ) * c,
          endTime := min (((i : ℚ) + 1) * c) d,
          filename := chunkFilename fmt i ((i : ℚ) * c) (min (((i : ℚ) + 1) * c) d) } := by
      simp [splitPlan, List.get_eq_getElem]
    have hstart : (0 : ℚ) ≤ (i : ℚ) * c :=
      mul_nonneg (Nat.cast_nonneg i) (le_of_lt hc)
    have hend : (0 : ℚ) ≤ min (((i : ℚ) + 1) * c) d := by
      refine le_min ?_ (le_of_lt hd)
      have : (0 : ℚ) ≤ (i : ℚ) + 1 := by positivity
      exact mul_nonneg this (le_of_lt hc)
    rw [hget]
    refine ⟨rfl, rfl, rfl, ?_⟩
    unfold chunkFilename
    rw [fmtTs_eq_specFmtTs _ hstart, fmtTs_eq_specFmtTs _ hend]

/-- C8 witness: a 7-second file with 2-second chunks yields 4 planned chunks,
and chunk 3 ends at the file duration 7. -/
theorem splitAudio_chunk_plan_witness :
    (splitPlan 7 2 "wav").length = 4 :=
  have h := splitAudio_chunk_plan 7 2 "wav" ⟨none, none, none⟩ 2
    (by norm_num) (by norm_num)
  by
    rw [h.2.2.1]
    have hc : ⌈(7 : ℚ) / 2⌉ = 4 := by
      rw [Int.ceil_eq_iff] <;> norm_num
    rw [hc]
    decide

/-! ## Transcriber retry envelope: `backoff.on_exception` around
`AudioTranscriber.transcribe_chunk_async` (`audio_transcriber.py`
lines 129-227) -/

/-- Exception kinds relevant to `transcribe_chunk_async`. -/
inductive PyExn where
  | httpErr     -- any httpx.HTTPError (transport errors, raise_for_status)
  | runtimeErr  -- RuntimeError (the 429 rate-limit signal)
  | valueErr    -- ValueError (chunk could not be retrieved)
deriving DecidableEq

/-- Outcome of the transcription POST for one attempt. -/
inductive ApiResp where
  | ok (text : String)
  | status429 (retryAfter : Option Nat)
  | errorStatus (code : Nat)
  | transportErr
deriving DecidableEq

/-- The external facts one attempt of `transcribe_chunk_async` observes. -/
structure AttemptEnv where
  chunkData : Bool     -- storage.get_file returned data
  preprocessOk : Bool  -- preprocess_audio returned audio (it returns None on failure)
  response : ApiResp
deriving DecidableEq

/-- The raising body of `transcribe_chunk_async` (everything inside its
`try`): missing chunk raises ValueError; failed preprocessing returns False;
a transport failure raises httpx.HTTPError; HTTP 429 raises RuntimeError;
other non-2xx raise via `raise_for_status` (an httpx.HTTPError); 2xx saves the
artifacts and returns True. -/
def transcribeAttempt (e : AttemptEnv) : Except PyExn Bool :=
  if !e.chunkData then .error .valueErr
  else if !e.preprocessOk then .ok false
  else
    match e.response with
    | .transportErr => .error .httpErr
    | .status429 _ => .error .runtimeErr
    | .errorStatus _ => .error .httpErr
    | .ok _ => .ok true

/-- The whole function body: the trailing `except Exception` handler catches
every exception the body can raise, records a task error and returns False. -/
def transcribeChunkBody (e : AttemptEnv) : Except PyExn Bool :=
  match transcribeAttempt e with
  | .error _ => .ok false
  | r => r

/-- The decorator retries only `(httpx.HTTPError, RuntimeError)`. -/
def retryable : PyExn → Bool
  | .httpErr => true
  | .runtimeErr => true
  | .valueErr => false

/-- `backoff.on_exception(..., max_tries=3)`: rerun the wrapped coroutine
while it raises a listed exception and tries remain; count the attempts made.
(The exponential pauses and the 300 s total cap only matter when a retry
happens at all.) -/
def backoffRetry (f : Nat → Except PyExn Bool) : Nat → Nat → Except PyExn Bool × Nat
  | _, 0 => (.error .runtimeErr, 0)
  | i, r + 1 =>
    match f i with
    | .ok b => (.ok b, 1)
    | .error ex =>
      if retryable ex && decide (0 < r) then
        ((backoffRetry f (i + 1) r).1, (backoffRetry f (i + 1) r).2 + 1)
      else (.error ex, 1)

/-- The decorated `transcribe_chunk_async`: attempt environments indexed by
attempt number, 3 tries. -/
def transcribeChunk (envs : Nat → AttemptEnv) : Except PyExn Bool × Nat :=
  backoffRetry (fun i => transcribeChunkBody (envs i)) 0 3

/-- C4: the `except Exception` block inside `transcribe_chunk_async` catches
the retryable errors before the `backoff` decorator can see them, so no input
is ever attempted twice; in particular a 429 response produces a single
attempt returning False instead of a backoff retry. -/
theorem transcribeChunk_never_retries (envs : Nat → AttemptEnv) :
    (transcribeChunk envs).2 = 1 ∧
      transcribeChunk (fun _ => ⟨true, true, .status429 (some 1)⟩) = (.ok false, 1) := by
  constructor
  · have hbody : ∀ e : AttemptEnv, ∃ b, transcribeChunkBody e = .ok b := by
      intro e
      rcases h : transcribeAttempt e with ex | b
      · exact ⟨false, by simp [transcribeChunkBody, h]⟩
      · exact ⟨b, by simp [transcribeChunkBody, h]⟩
    obtain ⟨b, hb⟩ := hbody (envs 0)
    simp [transcribeChunk, backoffRetry, hb]
  · rfl

/-! ## Object store gateway: `MinioStorageService.save_file`, `get_file`,
`delete_file` (`minio_service.py` lines 49-99, 101-113, 167-177) -/

structure S3Err where
  msg : String
deriving DecidableEq

/-- Observable storage-gateway actions. -/
inductive StoreEv where
  | putAttempt (n : Nat)
  | seekStart
  | sleepOneSec
  | getAttempt
  | deleteAttempt
deriving DecidableEq

/-- The retry loop of `save_file`: `for attempt in range(3)`; a successful
`put_object` returns the object path; an `S3Error` on attempts 0 or 1 seeks
the stream back to its start, sleeps 1 second and retries; an `S3Error` on
the last attempt is re-raised.  `b n` says whether the backend accepts the
n-th attempt. -/
def putLoop (b : Nat → Bool) : Nat → Nat → Except S3Err String × List StoreEv
  | _, 0 => (.error ⟨"unreachable"⟩, [])
  | attempt, r + 1 =>
    if b attempt then (.ok "objectPath", [.putAttempt attempt])
    else if r = 0 then (.error ⟨"S3Error"⟩, [.putAttempt attempt])
    else
      ((putLoop b (attempt + 1) r).1,
        .putAttempt attempt :: .seekStart :: .sleepOneSec :: (putLoop b (attempt + 1) r).2)

def saveFile (b : Nat → Bool) : Except S3Err String × List StoreEv :=
  putLoop b 0 3

/-- `get_file`: one backend call; any exception is logged and turned into
`None`. -/
def getFile (backend : Except S3Err String) : Except S3Err (Option String) × List StoreEv :=
  match backend with
  | .ok d => (.ok (some d), [.getAttempt])
  | .error _ => (.ok none, [.getAttempt])

/-- `delete_file`: one backend call; any exception is logged and turned into
`False`. -/
def deleteFile (backend : Except S3Err Unit) : Except S3Err Bool × List StoreEv :=
  match backend with
  | .ok _ => (.ok true, [.deleteAttempt])
  | .error _ => (.ok false, [.deleteAttempt])

/-- C9 (counterexample): on a failing backend, `get_file` evaluates to
`None` and `delete_file` to `False`; the backend error is swallowed, not
propagated as the claim states. -/
theorem getFile_swallows_backend_error :
    getFile (.error ⟨"connection refused"⟩) = (.ok none, [.getAttempt]) ∧
      deleteFile (.error ⟨"connection refused"⟩) = (.ok false, [.deleteAttempt]) ∧
      (Except.ok (none : Option String) ≠
        (Except.error ⟨"connection refused"⟩ : Except S3Err (Option String))) := by
  refine ⟨rfl, rfl, ?_⟩
  intro h
  exact Except.noConfusion h

/-- C9 (amended): `save_file` retries the backend upload up to 3 times on
backend errors, seeking the stream to its start and pausing 1 second between
attempts, and raises only after the third attempt fails; `get_file` and
`delete_file` make exactly one backend call and on error return None / False
to the caller instead of raising. -/
theorem saveFile_retry_spec (b : Nat → Bool) :
    (b 0 = true → saveFile b = (.ok "objectPath", [.putAttempt 0])) ∧
      (b 0 = false → b 1 = true →
        saveFile b = (.ok "objectPath",
          [.putAttempt 0, .seekStart, .sleepOneSec, .putAttempt 1])) ∧
      (b 0 = false → b 1 = false → b 2 = true →
        saveFile b = (.ok "objectPath",
          [.putAttempt 0, .seekStart, .sleepOneSec,
            .putAttempt 1, .seekStart, .sleepOneSec, .putAttempt 2])) ∧
      (b 0 = false → b 1 = false → b 2 = false →
        saveFile b = (.error ⟨"S3Error"⟩,
          [.putAttempt 0, .seekStart, .sleepOneSec,
            .putAttempt 1, .seekStart, .sleepOneSec, .putAttempt 2])) ∧
      (∀ g : Except S3Err String,
        (getFile g).2 = [.getAttempt] ∧ ∃ r, (getFile g).1 = .ok r) ∧
      (∀ g : Except S3Err Unit,
        (deleteFile g).2 = [.deleteAttempt] ∧ ∃ r, (deleteFile g).1 = .ok r) := by
  refine ⟨?_, ?_, ?_, ?_, ?_, ?_⟩
  · intro h0
    simp [saveFile, putLoop, h0]
  · intro h0 h1
    simp [saveFile, putLoop, h0, h1]
  · intro h0 h1 h2
    simp [saveFile, putLoop, h0, h1, h2]
  · intro h0 h1 h2
    simp [saveFile, putLoop, h0, h1, h2]
  · intro g
    rcases g with e | d
    · exact ⟨rfl, none, rfl⟩
    · exact ⟨rfl, some d, rfl⟩
  · intro g
    rcases g with e | d
    · exact ⟨rfl, false, rfl⟩
    · exact ⟨rfl, true, rfl⟩

/-- C9 witness: a backend that accepts only the third attempt makes
`save_file` succeed after two seek-sleep-retry rounds. -/
theorem saveFile_retry_spec_witness :
    saveFile (fun n => decide (n = 2)) = (.ok "objectPath",
      [.putAttempt 0, .seekStart, .sleepOneSec,
        .putAttempt 1, .seekStart, .sleepOneSec, .putAttempt 2]) :=
  (saveFile_retry_spec (fun n => decide (n = 2))).2.2.1 rfl rfl rfl

/-! ## Transcript merge: `AudioTranscriber.merge_transcripts`
(`audio_transcriber.py` lines 313-367) and `MinioStorageService.list_files`
(`minio_service.py` lines 153-165) -/

/-- A small JSON value model: enough to represent the chunk-result documents
(`{transcription: {text: ...}, metadata: {...}}`) and the chunk manifest. -/
inductive JVal where
  | str (s : String)
  | num (n : Nat)
  | obj (fields : List (String × JVal))

/-- Association lookup inside a JSON object (Python dict access). -/
def jlookup : List (String × JVal) → String → Option JVal
  | [], _ => none
  | (k, v) :: rest, key => if k = key then some v else jlookup rest key

/-- Python `d.get(key, {})` on an object value. -/
def getObjField (j : JVal) (key : String) : JVal :=
  match j with
  | .obj fields => (jlookup fields key).getD (.obj [])
  | _ => .obj []

/-- Python `d.get(key, '')` where the stored value is a string. -/
def getStrField (j : JVal) (key : String) : String :=
  match j with
  | .obj fields =>
    match jlookup fields key with
    | some (.str s) => s
    | _ => ""
  | _ => ""

/-- `chunk_data.get('transcription', {}).get('text', '')`. -/
def mergeTextOf (doc : JVal) : String :=
  getStrField (getObjField doc "transcription") "text"

/-- Python truthiness (`if chunk_data:`): empty containers and empty strings
are falsy. -/
def isTruthy : JVal → Bool
  | .str s => !s.isEmpty
  | .num n => decide (n ≠ 0)
  | .obj fields => !fields.isEmpty

/-- `Path(p).name`: everything after the last `/`. -/
def baseNameAux : List Char → List Char → List Char
  | [], acc => acc.reverse
  | '/' :: rest, _ => baseNameAux rest []
  | ch :: rest, acc => baseNameAux rest (ch :: acc)

def pathName (p : String) : String :=
  String.mk (baseNameAux p.data [])

/-- `str.endswith(suffix)`. -/
def strEndsWith (s suffix : String) : Bool :=
  decide (suffix.data.length ≤ s.data.length) &&
    decide (s.data.drop (s.data.length - suffix.data.length) = suffix.data)

/-- Python `sorted` compares strings by code points; `List Char` order is the
same lexicographic order. -/
def pyStrLe (a b : String) : Prop :=
  a.data ≤ b.data

instance : DecidableRel pyStrLe :=
  fun a b => inferInstanceAs (Decidable (a.data ≤ b.data))

/-- `merge_transcripts` over an abstract store: `listing` is what
`list_files(task_id, "chunks")` returns (every object name under the
`chunks/` prefix) and `getJson` resolves a basename the way
`get_json(task_id, "chunks", name)` does.  The code filters names ending in
`.json`, raises (returns failure) when none remain, reads them in sorted
order, appends `transcription.text` of every truthy document, and joins with
newlines. -/
def mergeTranscripts (listing : List String) (getJson : String → Option JVal) :
    Option String :=
  if (listing.filter (fun f => strEndsWith f ".json")).isEmpty then none
  else
    some (String.intercalate "\n"
      ((List.insertionSort pyStrLe (listing.filter (fun f => strEndsWith f ".json"))).filterMap
        (fun f =>
          match getJson (pathName f) with
          | some doc => if isTruthy doc then some (mergeTextOf doc) else none
          | none => none)))

/-- The `chunks/` listing of a one-chunk task right before the merge stage:
the chunk audio, its transcription `.json` and `.txt` artifacts, and the
`chunks_manifest.json` the splitter wrote to the same prefix. -/
def mergeListing : List String :=
  ["t1/chunks/chunk_000_00_00_00_000_00_00_05_000.wav",
    "t1/chunks/chunk_000_00_00_00_000_00_00_05_000.json",
    "t1/chunks/chunk_000_00_00_00_000_00_00_05_000.txt",
    "t1/chunks/chunks_manifest.json"]

/-- The stored JSON documents of that task, by basename. -/
def mergeStore : String → Option JVal := fun f =>
  if f = "chunk_000_00_00_00_000_00_00_05_000.json" then
    some (.obj [("transcription", .obj [("text", .str "hello")]),
      ("metadata", .obj [("chunk_path", .str "chunk_000_00_00_00_000_00_00_05_000.wav")])])
  else if f = "chunks_manifest.json" then
    some (.obj [("total_chunks", .num 1), ("chunk_duration", .num 300)])
  else none

/-- C2: `chunks_manifest.json` lives under the same `chunks/` prefix and ends
in `.json`, so the merge reads it too; it has no `transcription` key, so it
contributes an empty string, and the merged transcript of a one-chunk task
whose only chunk text is `hello` is `hello\n` — not the bare newline-join of
the per-chunk texts, and the merged file set is not exactly the per-chunk
result files. -/
theorem mergeTranscripts_includes_manifest :
    mergeTranscripts mergeListing mergeStore = some ("hello" ++ "\n") ∧
      ("hello" ++ "\n" : String) ≠ "hello" := by
  constructor
  · decide
  · decide

end AIETL
